import Mathlib

/-!
Verification of the NMS mod-manager core (src/src-tauri/src/main.rs).

The development shallowly embeds the two cores of the program:

* the settings-document reconciliation performed by `delete_mod`
  (structures `ModProperty`, `ModEntry`, `TopLevelProperty`, `SettingsData`
  and the pure transformation `deleteModDoc`), and
* the installation pipeline (`extract_archive_to_temp`'s RAR loop,
  `install_mod_from_archive`'s per-candidate analysis loop,
  `resolve_conflict`, `finalize_mod_installation`),
  with the mods directory modelled as a list of named entries.

The program only ever runs on Windows (`find_game_path` returns `None`
elsewhere, so every pipeline command errors out before touching the disk
on another platform); accordingly filesystem name lookups (`Path::exists`,
rename targets) are modelled case-insensitively with case-preserving
storage, which is NTFS behaviour.  Rust's `eq_ignore_ascii_case` and the
NTFS fold are both modelled by `asciiLower`, which folds exactly the
ASCII letters.
-/

/-- Mirror of struct `ModProperty` (attributes `@name`, optional `@value`). -/
structure ModProperty where
  name : String
  value : Option String
deriving DecidableEq

/-- Mirror of struct `ModEntry` (attributes `@name`, `@value`, `@_index`,
child `Property` list). -/
structure ModEntry where
  entry_name : String
  entry_value : String
  index : String
  properties : List ModProperty
deriving DecidableEq

/-- Mirror of struct `TopLevelProperty` (attributes `@name`, optional
`@value`, child mod entries). -/
structure TopLevelProperty where
  name : String
  value : Option String
  mods : List ModEntry
deriving DecidableEq

/-- Mirror of struct `SettingsData` (root element `Data`, attribute
`@template`, child `Property` list). -/
structure SettingsData where
  template : String
  properties : List TopLevelProperty
deriving DecidableEq

/-- ASCII case folding: lower-case exactly the ASCII letters of a string
(`Char.toLower` touches only `'A'`-`'Z'`).  Two strings are equal under
`asciiLower` exactly when Rust's `eq_ignore_ascii_case` holds, and NTFS
name lookups on the program's ASCII directory names compare the same
way. -/
def asciiLower (s : String) : String :=
  ⟨s.data.map Char.toLower⟩

/-- The `retain` predicate of `delete_mod`: keep an entry unless its first
`"Name"` property has a present value equal (ASCII-case-insensitively) to
`modName`, matching Rust's `eq_ignore_ascii_case`. -/
def keepEntry (modName : String) (entry : ModEntry) : Bool :=
  match entry.properties.find? (fun p => p.name == "Name") with
  | some nameProp =>
    match nameProp.value with
    | some nameValue => !(asciiLower nameValue == asciiLower modName)
    | none => true
  | none => true

/-- `delete_mod`'s renumbering of one entry's `"ModPriority"` property:
the first property named `"ModPriority"` gets its value set to the new
index; other properties are untouched. -/
def setFirstPriority (newIndex : String) : List ModProperty → List ModProperty
  | [] => []
  | p :: ps =>
    if p.name == "ModPriority" then { p with value := some newIndex } :: ps
    else p :: setFirstPriority newIndex ps

/-- One step of `delete_mod`'s re-indexing loop: position `i` becomes the
entry's `@_index` attribute and its first `"ModPriority"` value. -/
def reindexEntry (i : Nat) (entry : ModEntry) : ModEntry :=
  { entry with
      index := toString i
      properties := setFirstPriority (toString i) entry.properties }

/-- `delete_mod`'s `enumerate` loop over the surviving entries, assigning
zero-based positions starting at `i`. -/
def reindexMods (i : Nat) : List ModEntry → List ModEntry
  | [] => []
  | e :: es => reindexEntry i e :: reindexMods (i + 1) es

/-- The body run on the first `"Data"` top-level property: retain the
non-matching entries, then renumber them from 0. -/
def transformDataMods (modName : String) (mods : List ModEntry) : List ModEntry :=
  reindexMods 0 (mods.filter (keepEntry modName))

/-- The `for`/`break` loop of `delete_mod` step 4-5: only the first
property named `"Data"` is modified. -/
def updateFirstData (modName : String) : List TopLevelProperty → List TopLevelProperty
  | [] => []
  | p :: ps =>
    if p.name == "Data" then { p with mods := transformDataMods modName p.mods } :: ps
    else p :: updateFirstData modName ps

/-- The pure document transformation performed by `delete_mod` (steps 4-5
of the function; reading, folder deletion and serialisation are modelled
separately). -/
def deleteModDoc (modName : String) (root : SettingsData) : SettingsData :=
  { root with properties := updateFirstData modName root.properties }

/-- Projection used to state the claims: the mod-entry sequence of the
first top-level property named `"Data"`, if any. -/
def dataMods (root : SettingsData) : Option (List ModEntry) :=
  (root.properties.find? (fun p => p.name == "Data")).map (fun p => p.mods)

-- Basic lemmas about the pieces of `deleteModDoc`.

theorem setFirstPriority_names (v : String) :
    ∀ ps : List ModProperty,
      (setFirstPriority v ps).map (fun p => p.name) = ps.map (fun p => p.name) := by
  intro ps
  induction ps with
  | nil => rfl
  | cons p ps ih =>
    by_cases h : p.name = "ModPriority"
    · simp [setFirstPriority, h]
    · simp [setFirstPriority, h, ih]

theorem setFirstPriority_find_priority (v : String) :
    ∀ ps : List ModProperty,
      (setFirstPriority v ps).find? (fun p => p.name == "ModPriority") =
        (ps.find? (fun p => p.name == "ModPriority")).map
          (fun p => { p with value := some v }) := by
  intro ps
  induction ps with
  | nil => rfl
  | cons p ps ih =>
    by_cases h : p.name = "ModPriority"
    · simp [setFirstPriority, h, List.find?]
    · have hb : (p.name == "ModPriority") = false := by simp [h]
      simp [setFirstPriority, hb, List.find?, ih]

theorem setFirstPriority_find_name (v : String) :
    ∀ ps : List ModProperty,
      (setFirstPriority v ps).find? (fun p => p.name == "Name") =
        ps.find? (fun p => p.name == "Name") := by
  intro ps
  induction ps with
  | nil => rfl
  | cons p ps ih =>
    by_cases h : p.name = "ModPriority"
    · have hn : (p.name == "Name") = false := by simp [h]
      simp [setFirstPriority, h, List.find?, hn]
    · have hb : (p.name == "ModPriority") = false := by simp [h]
      by_cases hn : p.name = "Name"
      · simp [setFirstPriority, hb, List.find?, hn]
      · have hnb : (p.name == "Name") = false := by simp [hn]
        simp [setFirstPriority, hb, List.find?, hnb, ih]

theorem keepEntry_reindexEntry (modName : String) (i : Nat) (e : ModEntry) :
    keepEntry modName (reindexEntry i e) = keepEntry modName e := by
  simp [keepEntry, reindexEntry, setFirstPriority_find_name]

theorem reindexMods_length (n : Nat) (l : List ModEntry) :
    (reindexMods n l).length = l.length := by
  induction l generalizing n with
  | nil => rfl
  | cons e es ih => simp [reindexMods, ih]

theorem reindexMods_get (l : List ModEntry) :
    ∀ (n i : Nat) (h : i < l.length) (h2 : i < (reindexMods n l).length),
      (reindexMods n l).get ⟨i, h2⟩ = reindexEntry (n + i) (l.get ⟨i, h⟩) := by
  induction l with
  | nil => intro n i h; exact absurd h (Nat.not_lt_zero i)
  | cons e es ih =>
    intro n i h h2
    cases i with
    | zero => simp [reindexMods]
    | succ j =>
      have hj : j < es.length := Nat.lt_of_succ_lt_succ h
      have hj2 : j < (reindexMods (n + 1) es).length := by
        rw [reindexMods_length]; exact hj
      have heq : (reindexMods n (e :: es)).get ⟨j + 1, h2⟩ =
          (reindexMods (n + 1) es).get ⟨j, hj2⟩ := rfl
      rw [heq, ih (n + 1) j hj hj2]
      have harith : n + 1 + j = n + (j + 1) := by omega
      rw [harith]
      rfl

/-- Normalisation that erases exactly the fields `reindexEntry` may write:
the `@_index` attribute and the first `"ModPriority"` value. -/
def clearFirstPriority : List ModProperty → List ModProperty
  | [] => []
  | p :: ps =>
    if p.name == "ModPriority" then { p with value := none } :: ps
    else p :: clearFirstPriority ps

/-- Strip an entry down to the content `reindexEntry` never changes. -/
def stripEntry (e : ModEntry) : ModEntry :=
  { e with index := "", properties := clearFirstPriority e.properties }

theorem clearFirstPriority_setFirstPriority (v : String) :
    ∀ ps : List ModProperty,
      clearFirstPriority (setFirstPriority v ps) = clearFirstPriority ps := by
  intro ps
  induction ps with
  | nil => rfl
  | cons p ps ih =>
    by_cases h : p.name = "ModPriority"
    · simp [setFirstPriority, clearFirstPriority, h]
    · simp [setFirstPriority, clearFirstPriority, h, ih]

theorem stripEntry_reindexEntry (i : Nat) (e : ModEntry) :
    stripEntry (reindexEntry i e) = stripEntry e := by
  simp [stripEntry, reindexEntry, clearFirstPriority_setFirstPriority]

theorem reindexMods_map_strip (l : List ModEntry) :
    ∀ n : Nat, (reindexMods n l).map stripEntry = l.map stripEntry := by
  induction l with
  | nil => intro n; rfl
  | cons e es ih => intro n; simp [reindexMods, stripEntry_reindexEntry, ih]

-- Idempotence of the renumbering pass.

theorem setFirstPriority_idem (v : String) :
    ∀ ps : List ModProperty,
      setFirstPriority v (setFirstPriority v ps) = setFirstPriority v ps := by
  intro ps
  induction ps with
  | nil => rfl
  | cons p ps ih =>
    by_cases h : p.name = "ModPriority"
    · simp [setFirstPriority, h]
    · simp [setFirstPriority, h, ih]

theorem reindexEntry_idem (i : Nat) (e : ModEntry) :
    reindexEntry i (reindexEntry i e) = reindexEntry i e := by
  simp [reindexEntry, setFirstPriority_idem]

theorem reindexMods_idem (l : List ModEntry) :
    ∀ n : Nat, reindexMods n (reindexMods n l) = reindexMods n l := by
  induction l with
  | nil => intro n; rfl
  | cons e es ih => intro n; simp [reindexMods, reindexEntry_idem, ih]

theorem filter_keep_reindexMods (modName : String) (l : List ModEntry)
    (hl : ∀ e ∈ l, keepEntry modName e = true) :
    ∀ n : Nat, (reindexMods n l).filter (keepEntry modName) = reindexMods n l := by
  induction l with
  | nil => intro n; rfl
  | cons e es ih =>
    intro n
    have he : keepEntry modName e = true := hl e (List.mem_cons_self e es)
    have hes : ∀ x ∈ es, keepEntry modName x = true := by
      intro x hx; exact hl x (List.mem_cons_of_mem e hx)
    simp [reindexMods, List.filter, keepEntry_reindexEntry, he, ih hes]

theorem transformDataMods_idem (modName : String) (mods : List ModEntry) :
    transformDataMods modName (transformDataMods modName mods) =
      transformDataMods modName mods := by
  unfold transformDataMods
  rw [filter_keep_reindexMods modName (mods.filter (keepEntry modName))
    (fun e he => List.of_mem_filter he)]
  exact reindexMods_idem _ 0

-- Decomposition of the first-`"Data"` update, from which the frame and
-- functional claims about `delete_mod` follow.

theorem updateFirstData_decomp (modName : String) :
    ∀ l : List TopLevelProperty,
      ((∀ p ∈ l, ¬ p.name = "Data") ∧ updateFirstData modName l = l) ∨
      (∃ l₁ d l₂, l = l₁ ++ d :: l₂ ∧ (∀ p ∈ l₁, ¬ p.name = "Data") ∧
        d.name = "Data" ∧
        updateFirstData modName l =
          l₁ ++ { d with mods := transformDataMods modName d.mods } :: l₂) := by
  intro l
  induction l with
  | nil => exact Or.inl ⟨(by intro p hp; cases hp), rfl⟩
  | cons p ps ih =>
    by_cases h : p.name = "Data"
    · refine Or.inr ⟨[], p, ps, ?_, ?_, h, ?_⟩
      · simp
      · simp
      · simp [updateFirstData, h]
    · rcases ih with ⟨hall, heq⟩ | ⟨l₁, d, l₂, hsplit, hl₁, hd, heq⟩
      · refine Or.inl ⟨?_, by simp [updateFirstData, h, heq]⟩
        intro q hq
        rcases List.mem_cons.mp hq with rfl | hq'
        · exact h
        · exact hall q hq'
      · refine Or.inr ⟨p :: l₁, d, l₂, by simp [hsplit], ?_, hd,
          by simp [updateFirstData, h, heq]⟩
        intro q hq
        rcases List.mem_cons.mp hq with rfl | hq'
        · exact h
        · exact hl₁ q hq'

theorem updateFirstData_append (modName : String) (d : TopLevelProperty)
    (l₂ : List TopLevelProperty) :
    ∀ l₁ : List TopLevelProperty, (∀ p ∈ l₁, ¬ p.name = "Data") → d.name = "Data" →
      updateFirstData modName (l₁ ++ d :: l₂) =
        l₁ ++ { d with mods := transformDataMods modName d.mods } :: l₂ := by
  intro l₁
  induction l₁ with
  | nil => intro _ hd; simp [updateFirstData, hd]
  | cons p ps ih =>
    intro hl₁ hd
    have hp : ¬ p.name = "Data" := hl₁ p (List.mem_cons_self p ps)
    have hps : ∀ q ∈ ps, ¬ q.name = "Data" := by
      intro q hq; exact hl₁ q (List.mem_cons_of_mem p hq)
    simp [updateFirstData, hp, ih hps hd]

theorem updateFirstData_idem (modName : String) (l : List TopLevelProperty) :
    updateFirstData modName (updateFirstData modName l) = updateFirstData modName l := by
  rcases updateFirstData_decomp modName l with ⟨_, heq⟩ | ⟨l₁, d, l₂, _, hl₁, hd, heq⟩
  · rw [heq, heq]
  · rw [heq]
    have hd' : ({ d with mods := transformDataMods modName d.mods } :
        TopLevelProperty).name = "Data" := hd
    rw [updateFirstData_append modName _ l₂ l₁ hl₁ hd']
    simp [transformDataMods_idem]

theorem deleteModDoc_idem (modName : String) (root : SettingsData) :
    deleteModDoc modName (deleteModDoc modName root) = deleteModDoc modName root := by
  simp [deleteModDoc, updateFirstData_idem]

theorem find_data_append (l₁ : List TopLevelProperty) (d : TopLevelProperty)
    (l₂ : List TopLevelProperty) (hl₁ : ∀ p ∈ l₁, ¬ p.name = "Data")
    (hd : d.name = "Data") :
    (l₁ ++ d :: l₂).find? (fun p => p.name == "Data") = some d := by
  induction l₁ with
  | nil => simp [List.find?, hd]
  | cons p ps ih =>
    have hp : ¬ p.name = "Data" := hl₁ p (List.mem_cons_self p ps)
    have hb : (p.name == "Data") = false := by simp [hp]
    have hps : ∀ q ∈ ps, ¬ q.name = "Data" := by
      intro q hq; exact hl₁ q (List.mem_cons_of_mem p hq)
    simp [List.find?, hb, ih hps]

-- Canonical indexing: an entry sequence on which the renumbering pass of
-- `delete_mod` is the identity (each entry's `@_index` and first
-- `"ModPriority"` value already equal its position).

/-- The first `"ModPriority"` value of a property list already equals the
given position (or there is no `"ModPriority"` property). -/
def priorityCanonical (i : Nat) (ps : List ModProperty) : Bool :=
  match ps.find? (fun p => p.name == "ModPriority") with
  | some p => p.value == some (toString i)
  | none => true

/-- The entry's `@_index` and first `"ModPriority"` value equal `i`. -/
def entryCanonical (i : Nat) (e : ModEntry) : Bool :=
  e.index == toString i && priorityCanonical i e.properties

/-- The whole sequence is contiguously indexed starting at `i`. -/
def canonicalFrom (i : Nat) : List ModEntry → Bool
  | [] => true
  | e :: es => entryCanonical i e && canonicalFrom (i + 1) es

theorem setFirstPriority_of_canonical (i : Nat) :
    ∀ ps : List ModProperty, priorityCanonical i ps = true →
      setFirstPriority (toString i) ps = ps := by
  intro ps
  induction ps with
  | nil => intro _; rfl
  | cons p ps ih =>
    intro hp
    by_cases h : p.name = "ModPriority"
    · have hfind : (p :: ps).find? (fun q => q.name == "ModPriority") = some p := by
        simp [List.find?, h]
      have hv : p.value = some (toString i) := by
        rw [priorityCanonical, hfind] at hp
        exact eq_of_beq hp
      have hpe : ({ name := "ModPriority", value := some (toString i) } :
          ModProperty) = p := by
        cases p with
        | mk nm v => simp only at hv h; rw [hv, h]
      simp [setFirstPriority, h, hpe]
    · have hb : (p.name == "ModPriority") = false := by simp [h]
      have hp' : priorityCanonical i ps = true := by
        rw [priorityCanonical] at hp ⊢
        rwa [List.find?, hb] at hp
      simp [setFirstPriority, h, ih hp']

theorem reindexEntry_of_canonical (i : Nat) (e : ModEntry)
    (h : entryCanonical i e = true) : reindexEntry i e = e := by
  rw [entryCanonical, Bool.and_eq_true] at h
  obtain ⟨hidx, hpr⟩ := h
  have hidx' : e.index = toString i := eq_of_beq hidx
  cases e with
  | mk en ev ix ps =>
    simp at hidx'
    simp [reindexEntry, hidx', setFirstPriority_of_canonical i ps hpr]

theorem reindexMods_of_canonical :
    ∀ (l : List ModEntry) (i : Nat), canonicalFrom i l = true → reindexMods i l = l := by
  intro l
  induction l with
  | nil => intro i _; rfl
  | cons e es ih =>
    intro i h
    rw [canonicalFrom, Bool.and_eq_true] at h
    simp [reindexMods, reindexEntry_of_canonical i e h.1, ih (i + 1) h.2]

-- Canonical serialisation.  `delete_mod` step 6 hands the struct to
-- quick_xml's serializer and re-indents the event stream with two-space
-- nesting, prepending a fixed header.  That external pipeline is a pure,
-- deterministic function of the struct; it is modelled here as one Lean
-- function producing the header plus the 2-space-indented markup.

/-- XML attribute-value escaping (as quick_xml performs on write). -/
def xmlEscape (s : String) : String :=
  String.join (s.toList.map (fun c =>
    if c = '&' then "&amp;"
    else if c = '<' then "&lt;"
    else if c = '>' then "&gt;"
    else if c = '"' then "&quot;"
    else if c = '\'' then "&apos;"
    else String.singleton c))

/-- Two spaces of indentation per nesting level. -/
def indentStr (n : Nat) : String :=
  String.join (List.replicate n "  ")

/-- One serialized XML attribute. -/
def attrStr (attrName attrValue : String) : String :=
  " " ++ attrName ++ "=\"" ++ xmlEscape attrValue ++ "\""

/-- An attribute that serde skips when the field is `None`. -/
def optAttrStr (attrName : String) : Option String → String
  | some v => attrStr attrName v
  | none => ""

/-- Serialized form of a `ModProperty` (leaf element). -/
def modPropertyXml (depth : Nat) (p : ModProperty) : String :=
  indentStr depth ++ "<Property" ++ attrStr "name" p.name ++
    optAttrStr "value" p.value ++ "/>\n"

/-- Serialized form of a `ModEntry`. -/
def modEntryXml (depth : Nat) (e : ModEntry) : String :=
  let headStr := indentStr depth ++ "<Property" ++ attrStr "name" e.entry_name ++
    attrStr "value" e.entry_value ++ attrStr "_index" e.index
  if e.properties.isEmpty then headStr ++ "/>\n"
  else headStr ++ ">\n" ++ String.join (e.properties.map (modPropertyXml (depth + 1))) ++
    indentStr depth ++ "</Property>\n"

/-- Serialized form of a `TopLevelProperty`. -/
def topLevelXml (depth : Nat) (t : TopLevelProperty) : String :=
  let headStr := indentStr depth ++ "<Property" ++ attrStr "name" t.name ++
    optAttrStr "value" t.value
  if t.mods.isEmpty then headStr ++ "/>\n"
  else headStr ++ ">\n" ++ String.join (t.mods.map (modEntryXml (depth + 1))) ++
    indentStr depth ++ "</Property>\n"

/-- The text `delete_mod` returns: fixed XML declaration plus the
canonically indented document. -/
def serializeSettings (root : SettingsData) : String :=
  "<?xml version=\"1.0\" encoding=\"utf-8\"?>\n" ++
    (if root.properties.isEmpty then
      "<Data" ++ attrStr "template" root.template ++ "/>\n"
    else
      "<Data" ++ attrStr "template" root.template ++ ">\n" ++
        String.join (root.properties.map (topLevelXml 1)) ++ "</Data>\n")

-- Concrete example documents used by the witnesses below.

/-- A well-formed mod entry: `Name` and `ModPriority` child properties. -/
def exEntry (nm idx pr : String) : ModEntry :=
  ⟨"Mod", "mod-entry", idx, [⟨"Name", some nm⟩, ⟨"ModPriority", some pr⟩]⟩

/-- Three canonically indexed entries; the middle one is named `"Foo"`. -/
def exMods3 : List ModEntry :=
  [exEntry "Alpha" "0" "0", exEntry "Foo" "1" "1", exEntry "Beta" "2" "2"]

/-- A document with a version property and a `"Data"` property. -/
def exDoc3 : SettingsData :=
  ⟨"GcModSettings", [⟨"Version", some "1", []⟩, ⟨"Data", none, exMods3⟩]⟩

/-- The mod entries of `exDoc3` after deleting `"Foo"`. -/
def exDelResult : List ModEntry := transformDataMods "Foo" exMods3

/-- An entry named `"Bar"` carrying a stale index `"5"`. -/
def exEntryStale : ModEntry :=
  ⟨"Mod", "mod-entry", "5", [⟨"Name", some "Bar"⟩, ⟨"ModPriority", some "5"⟩]⟩

/-- A document whose only entry has the stale index `"5"`. -/
def exDocStale : SettingsData := ⟨"GcModSettings", [⟨"Data", none, [exEntryStale]⟩]⟩

/-- A canonically indexed document with no entry named `"Foo"`. -/
def exDocCanon : SettingsData :=
  ⟨"GcModSettings", [⟨"Data", none, [exEntry "Bar" "0" "0", exEntry "Baz" "1" "1"]⟩]⟩

theorem dataMods_deleteModDoc (modName : String) (root : SettingsData) :
    dataMods (deleteModDoc modName root) =
      (dataMods root).map (transformDataMods modName) := by
  rcases updateFirstData_decomp modName root.properties with
    ⟨hall, heq⟩ | ⟨l₁, d, l₂, hsplit, hl₁, hd, heq⟩
  · have h1 : root.properties.find? (fun p => p.name == "Data") = none := by
      rw [List.find?_eq_none]
      intro p hp
      simp [hall p hp]
    have h2 : (updateFirstData modName root.properties).find?
        (fun p => p.name == "Data") = none := by
      rw [heq]; exact h1
    simp [dataMods, deleteModDoc, h1, h2]
  · have h1 : root.properties.find? (fun p => p.name == "Data") = some d := by
      rw [hsplit]; exact find_data_append l₁ d l₂ hl₁ hd
    have h2 : (updateFirstData modName root.properties).find?
        (fun p => p.name == "Data") =
        some { d with mods := transformDataMods modName d.mods } := by
      rw [heq]; exact find_data_append l₁ _ l₂ hl₁ hd
    simp [dataMods, deleteModDoc, h1, h2]

/-- C2: after `delete_mod` removes entries from the `"Data"` property's
mod-entry sequence, every surviving entry's explicit `@_index` attribute,
and the value of its `"ModPriority"` property whenever the entry has one,
equal the entry's new zero-based position in the sequence — so the
indices are contiguous integers starting at 0 — and, apart from these
renumbered fields, the surviving sequence is exactly the retained
original entries in their original relative order. -/
theorem delete_mod_reindex_contiguous_from_zero (modName : String)
    (root : SettingsData) (r : List ModEntry)
    (h : dataMods (deleteModDoc modName root) = some r) :
    (∀ (i : Nat) (hi : i < r.length),
      (r.get ⟨i, hi⟩).index = toString i ∧
      ∀ p, (r.get ⟨i, hi⟩).properties.find? (fun q => q.name == "ModPriority") =
          some p → p.value = some (toString i)) ∧
    ∃ orig, dataMods root = some orig ∧
      r.map stripEntry = (orig.filter (keepEntry modName)).map stripEntry := by
  have hmap := dataMods_deleteModDoc modName root
  rw [h] at hmap
  cases horig : dataMods root with
  | none => rw [horig] at hmap; exact absurd hmap (by simp)
  | some orig =>
    rw [horig] at hmap
    have hr : r = transformDataMods modName orig := by simpa using hmap
    subst hr
    constructor
    · intro i hi
      have hi' : i < (orig.filter (keepEntry modName)).length := by
        simpa [transformDataMods, reindexMods_length] using hi
      have hget : (transformDataMods modName orig).get ⟨i, hi⟩ =
          reindexEntry (0 + i) ((orig.filter (keepEntry modName)).get ⟨i, hi'⟩) :=
        reindexMods_get (orig.filter (keepEntry modName)) 0 i hi' hi
      rw [hget]
      constructor
      · simp [reindexEntry]
      · intro p hp
        rw [reindexEntry] at hp
        simp only at hp
        rw [setFirstPriority_find_priority] at hp
        cases hbase : ((orig.filter (keepEntry modName)).get ⟨i, hi'⟩).properties.find?
            (fun q => q.name == "ModPriority") with
        | none => rw [hbase] at hp; exact absurd hp (by simp)
        | some q =>
          rw [hbase] at hp
          have : ({ q with value := some (toString (0 + i)) } : ModProperty) = p := by
            simpa using hp
          rw [← this]
          simp
    · exact ⟨orig, rfl, by simp [transformDataMods, reindexMods_map_strip]⟩

/-- Witness for the reindexing theorem at a concrete three-entry document
whose middle entry is named `"Foo"`. -/
theorem delete_mod_reindex_contiguous_from_zero_witness :
    (∀ (i : Nat) (hi : i < exDelResult.length),
      (exDelResult.get ⟨i, hi⟩).index = toString i ∧
      ∀ p, (exDelResult.get ⟨i, hi⟩).properties.find?
          (fun q => q.name == "ModPriority") = some p →
        p.value = some (toString i)) ∧
    ∃ orig, dataMods exDoc3 = some orig ∧
      exDelResult.map stripEntry =
        (orig.filter (keepEntry "Foo")).map stripEntry :=
  delete_mod_reindex_contiguous_from_zero "Foo" exDoc3 exDelResult rfl

/-- C3: `delete_mod` removes from the `"Data"` property's mod-entry
sequence exactly those entries whose (first) nested `"Name"` property has
a present value that ASCII-case-insensitively equals `mod_name`; an entry
with no `"Name"` property, or whose `"Name"` property has an absent
value, is always kept. -/
theorem delete_mod_removes_exactly_name_matches (modName : String)
    (root : SettingsData) (r : List ModEntry)
    (h : dataMods (deleteModDoc modName root) = some r) :
    (∃ orig, dataMods root = some orig ∧
      r = reindexMods 0 (orig.filter (keepEntry modName))) ∧
    ∀ e : ModEntry,
      keepEntry modName e = false ↔
        ∃ p, e.properties.find? (fun q => q.name == "Name") = some p ∧
          ∃ v, p.value = some v ∧ asciiLower v = asciiLower modName := by
  constructor
  · have hmap := dataMods_deleteModDoc modName root
    rw [h] at hmap
    cases horig : dataMods root with
    | none => rw [horig] at hmap; exact absurd hmap (by simp)
    | some orig =>
      rw [horig] at hmap
      exact ⟨orig, rfl, by simpa [transformDataMods] using hmap⟩
  · intro e
    cases hfind : e.properties.find? (fun q => q.name == "Name") with
    | none => simp [keepEntry, hfind]
    | some np =>
      cases hv : np.value with
      | none => simp [keepEntry, hfind, hv]
      | some v => simp [keepEntry, hfind, hv]

/-- Witness for the removal theorem at the concrete three-entry document:
the `"Foo"` entry is removed, entries without a matching name survive. -/
theorem delete_mod_removes_exactly_name_matches_witness :
    (∃ orig, dataMods exDoc3 = some orig ∧
      exDelResult = reindexMods 0 (orig.filter (keepEntry "Foo"))) ∧
    ∀ e : ModEntry,
      keepEntry "Foo" e = false ↔
        ∃ p, e.properties.find? (fun q => q.name == "Name") = some p ∧
          ∃ v, p.value = some v ∧ asciiLower v = asciiLower "Foo" :=
  delete_mod_removes_exactly_name_matches "Foo" exDoc3 exDelResult rfl

/-- C10: `delete_mod` leaves the root's `template` attribute untouched,
and either the document has no top-level property named `"Data"` and
passes through entirely unmodified, or the property list splits as
`l₁ ++ d :: l₂` with `d` the first `"Data"` property, and only `d`'s
mod-entry sequence is rewritten — every property in `l₁` and `l₂`, and
`d`'s own `name` and `value` attributes, are unchanged. -/
theorem delete_mod_frame_first_data_only (modName : String) (root : SettingsData) :
    (deleteModDoc modName root).template = root.template ∧
    (((∀ p ∈ root.properties, ¬ p.name = "Data") ∧ deleteModDoc modName root = root) ∨
     (∃ l₁ d l₂, root.properties = l₁ ++ d :: l₂ ∧ (∀ p ∈ l₁, ¬ p.name = "Data") ∧
       d.name = "Data" ∧
       (deleteModDoc modName root).properties =
         l₁ ++ { d with mods := transformDataMods modName d.mods } :: l₂)) := by
  refine ⟨rfl, ?_⟩
  rcases updateFirstData_decomp modName root.properties with
    ⟨hall, heq⟩ | ⟨l₁, d, l₂, hsplit, hl₁, hd, heq⟩
  · left
    refine ⟨hall, ?_⟩
    show { root with properties := updateFirstData modName root.properties } = root
    rw [heq]
  · right
    exact ⟨l₁, d, l₂, hsplit, hl₁, hd, heq⟩

/-- Witness for the frame theorem at the concrete document: `exDoc3`'s
`"Version"` property precedes its `"Data"` property. -/
theorem delete_mod_frame_first_data_only_witness :
    (deleteModDoc "Foo" exDoc3).template = exDoc3.template ∧
    (((∀ p ∈ exDoc3.properties, ¬ p.name = "Data") ∧
        deleteModDoc "Foo" exDoc3 = exDoc3) ∨
     (∃ l₁ d l₂, exDoc3.properties = l₁ ++ d :: l₂ ∧
       (∀ p ∈ l₁, ¬ p.name = "Data") ∧ d.name = "Data" ∧
       (deleteModDoc "Foo" exDoc3).properties =
         l₁ ++ { d with mods := transformDataMods "Foo" d.mods } :: l₂)) :=
  delete_mod_frame_first_data_only "Foo" exDoc3

/-- Counterexample to C9 as stated: `exDocStale` contains no entry whose
`"Name"` matches `"Foo"` (its only entry, named `"Bar"`, is kept), yet
`delete_mod` does not return the document unchanged in content: the
renumbering pass rewrites the stale index `"5"` (and the stale
`"ModPriority"` value) to `"0"`. -/
theorem delete_mod_changes_stale_index_without_match :
    dataMods exDocStale = some [exEntryStale] ∧
    keepEntry "Foo" exEntryStale = true ∧
    deleteModDoc "Foo" exDocStale ≠ exDocStale := by decide

/-- C9 amended: for every settings document with no matching entry WHOSE
first `"Data"` sequence is moreover already canonically indexed (each
entry's `@_index` and first `"ModPriority"` value equal its position),
`delete_mod` returns the document unchanged in content, only canonically
reformatted; and — for every document and name whatsoever — repeated
applications of `delete_mod` to their own output are byte-for-byte
stable. -/
theorem delete_mod_noop_on_canonical_no_match (modName : String)
    (root : SettingsData)
    (h : ∀ orig, dataMods root = some orig →
      (∀ e ∈ orig, keepEntry modName e = true) ∧ canonicalFrom 0 orig = true) :
    deleteModDoc modName root = root ∧
    ∀ (mn : String) (doc : SettingsData),
      serializeSettings (deleteModDoc mn (deleteModDoc mn doc)) =
        serializeSettings (deleteModDoc mn doc) := by
  constructor
  · rcases updateFirstData_decomp modName root.properties with
      ⟨hall, heq⟩ | ⟨l₁, d, l₂, hsplit, hl₁, hd, heq⟩
    · show { root with properties := updateFirstData modName root.properties } = root
      rw [heq]
    · have hfind : dataMods root = some d.mods := by
        rw [dataMods, hsplit, find_data_append l₁ d l₂ hl₁ hd]
        rfl
      obtain ⟨hkeep, hcanon⟩ := h d.mods hfind
      have hfilter : d.mods.filter (keepEntry modName) = d.mods :=
        List.filter_eq_self.mpr hkeep
      have hT : transformDataMods modName d.mods = d.mods := by
        rw [transformDataMods, hfilter, reindexMods_of_canonical d.mods 0 hcanon]
      have hde : ({ d with mods := transformDataMods modName d.mods } :
          TopLevelProperty) = d := by
        rw [hT]
      show { root with properties := updateFirstData modName root.properties } = root
      rw [heq, hde, ← hsplit]
  · intro mn doc
    exact congrArg serializeSettings (deleteModDoc_idem mn doc)

/-- Witness for the amended no-op theorem at a canonically indexed
document with no entry named `"Foo"`. -/
theorem delete_mod_noop_on_canonical_no_match_witness :
    deleteModDoc "Foo" exDocCanon = exDocCanon ∧
    ∀ (mn : String) (doc : SettingsData),
      serializeSettings (deleteModDoc mn (deleteModDoc mn doc)) =
        serializeSettings (deleteModDoc mn doc) :=
  delete_mod_noop_on_canonical_no_match "Foo" exDocCanon (by
    intro orig horig
    have hval : dataMods exDocCanon =
        some [exEntry "Bar" "0" "0", exEntry "Baz" "1" "1"] := rfl
    rw [hval] at horig
    have horig' : orig = [exEntry "Bar" "0" "0", exEntry "Baz" "1" "1"] :=
      (Option.some.inj horig).symm
    subst horig'
    exact ⟨by decide, by decide⟩)

-- Installation pipeline: `install_mod_from_archive`'s analysis loop.
-- The mods root is modelled as the list of names of its directory
-- entries (an NTFS directory holds at most one entry per
-- case-insensitive name, and lookups fold case).

/-- `Path::exists` for `parent/probe`: some entry of the directory has a
case-insensitively equal name (NTFS lookup semantics). -/
def existsCI (entries : List String) (probe : String) : Bool :=
  entries.any (fun e => asciiLower e == asciiLower probe)

/-- No two entries share a case-insensitive name: the property an NTFS
directory always has, and the "at most one Mod Folder per name"
invariant of the mods root. -/
def ciDistinct : List String → Bool
  | [] => true
  | e :: es => !existsCI es e && ciDistinct es

/-- Mirror of struct `ModInstallInfo`. -/
structure ModInstallInfo where
  name : String
  temp_path : String
deriving DecidableEq

/-- Mirror of struct `InstallationAnalysis`. -/
structure InstallationAnalysis where
  successes : List ModInstallInfo
  conflicts : List ModInstallInfo
  messy_archive_path : Option String
deriving DecidableEq

/-- State carried across the candidate loop of
`install_mod_from_archive`: the mods root's entry names, the staging
directory's entry names (the staging directory is `stagingName` under the
mods root; it exists exactly when its name is listed in `rootNames`), and
the two result vectors. -/
structure AnalyzeState where
  rootNames : List String
  stagingNames : List String
  successes : List ModInstallInfo
  conflicts : List ModInstallInfo
deriving DecidableEq

/-- `PathBuf::join` (Windows separator). -/
def pathJoin (parent child : String) : String := parent ++ "\\" ++ child

/-- One iteration of the `for entry in folder_entries` loop: if
`mods_path/<name>` exists the candidate is staged (creating the staging
directory first unless it already exists) and recorded as a conflict;
otherwise it is renamed into the mods root and recorded as a success. -/
def processOne (modsPath stagingName : String) (s : AnalyzeState)
    (modName : String) : AnalyzeState :=
  if existsCI s.rootNames modName then
    let rootNames1 := if existsCI s.rootNames stagingName then s.rootNames
      else s.rootNames ++ [stagingName]
    { rootNames := rootNames1
      stagingNames := s.stagingNames ++ [modName]
      successes := s.successes
      conflicts := s.conflicts ++
        [⟨modName, pathJoin (pathJoin modsPath stagingName) modName⟩] }
  else
    { rootNames := s.rootNames ++ [modName]
      stagingNames := s.stagingNames
      successes := s.successes ++ [⟨modName, pathJoin modsPath modName⟩]
      conflicts := s.conflicts }

/-- An immediate child of the extraction target, as returned by
`fs::read_dir` (name plus `is_dir` flag). -/
structure DirEnt where
  name : String
  isDir : Bool
deriving DecidableEq

/-- Fresh analysis state before the candidate loop. -/
def initAnalyzeState (rootNames : List String) : AnalyzeState :=
  ⟨rootNames, [], [], []⟩

/-- Steps 2-4 of `install_mod_from_archive`: filter the extraction
target's children to directories; with no directory, return the "messy"
result carrying the extraction target's path unchanged; otherwise run the
candidate loop and return its successes and conflicts. -/
def analyzeExtracted (modsPath stagingName tempExtractPath : String)
    (rootNames : List String) (children : List DirEnt) :
    AnalyzeState × InstallationAnalysis :=
  let folderEntries := (children.filter (fun e => e.isDir)).map (fun e => e.name)
  if folderEntries.isEmpty then
    (initAnalyzeState rootNames, ⟨[], [], some tempExtractPath⟩)
  else
    let final := folderEntries.foldl (processOne modsPath stagingName)
      (initAnalyzeState rootNames)
    (final, ⟨final.successes, final.conflicts, none⟩)

theorem existsCI_append_singleton (l : List String) (x probe : String) :
    existsCI (l ++ [x]) probe =
      (existsCI l probe || (asciiLower x == asciiLower probe)) := by
  simp [existsCI]

theorem ciDistinct_append :
    ∀ (l : List String) (x : String), ciDistinct l = true →
      existsCI l x = false → ciDistinct (l ++ [x]) = true := by
  intro l
  induction l with
  | nil => intro x _ _; simp [ciDistinct, existsCI]
  | cons e es ih =>
    intro x hl hx
    rw [existsCI, List.any_cons, Bool.or_eq_false_iff] at hx
    rw [ciDistinct, Bool.and_eq_true] at hl
    show ciDistinct (e :: (es ++ [x])) = true
    rw [ciDistinct, Bool.and_eq_true]
    have hxe : (asciiLower x == asciiLower e) = false := by
      rw [beq_eq_false_iff_ne] at hx ⊢
      exact fun h => hx.1 h.symm
    refine ⟨?_, ih x hl.2 hx.2⟩
    rw [existsCI_append_singleton, hxe]
    simpa using hl.1

theorem processOne_ciDistinct (modsPath stagingName : String) (s : AnalyzeState)
    (c : String) (hs : ciDistinct s.rootNames = true) :
    ciDistinct ((processOne modsPath stagingName s c).rootNames) = true := by
  by_cases hc : existsCI s.rootNames c = true
  · by_cases hst : existsCI s.rootNames stagingName = true
    · simp [processOne, hc, hst, hs]
    · have hst' : existsCI s.rootNames stagingName = false :=
        Bool.eq_false_iff.mpr hst
      simp only [processOne, hc, if_true, hst', if_false]
      exact ciDistinct_append s.rootNames stagingName hs hst'
  · have hc' : existsCI s.rootNames c = false := Bool.eq_false_iff.mpr hc
    simp only [processOne, hc', if_false]
    exact ciDistinct_append s.rootNames c hs hc'

theorem foldl_processOne_ciDistinct (modsPath stagingName : String) :
    ∀ (cands : List String) (s : AnalyzeState), ciDistinct s.rootNames = true →
      ciDistinct ((cands.foldl (processOne modsPath stagingName) s).rootNames) = true := by
  intro cands
  induction cands with
  | nil => intro s hs; exact hs
  | cons c cs ih =>
    intro s hs
    rw [List.foldl_cons]
    exact ih _ (processOne_ciDistinct modsPath stagingName s c hs)

/-- C1: each candidate directory whose name already exists in the mods
root (`Path::exists`, case-insensitive on NTFS) is moved into
`staging_area/<candidate-name>` — the staging directory being created
lazily, only when not already present — and recorded as a conflict;
otherwise it is moved to `mods_root/<candidate-name>` and recorded as a
success; and the candidate loop preserves the invariant that the mods
root holds at most one entry per case-insensitive name. -/
theorem install_candidate_classification_preserves_unique_names
    (modsPath stagingName : String) (s : AnalyzeState) (n : String)
    (cands : List String) (hroot : ciDistinct s.rootNames = true) :
    (existsCI s.rootNames n = true →
      processOne modsPath stagingName s n =
        { rootNames := if existsCI s.rootNames stagingName then s.rootNames
            else s.rootNames ++ [stagingName]
          stagingNames := s.stagingNames ++ [n]
          successes := s.successes
          conflicts := s.conflicts ++
            [⟨n, pathJoin (pathJoin modsPath stagingName) n⟩] }) ∧
    (existsCI s.rootNames n = false →
      processOne modsPath stagingName s n =
        { rootNames := s.rootNames ++ [n]
          stagingNames := s.stagingNames
          successes := s.successes ++ [⟨n, pathJoin modsPath n⟩]
          conflicts := s.conflicts }) ∧
    ciDistinct ((cands.foldl (processOne modsPath stagingName) s).rootNames) = true := by
  refine ⟨?_, ?_, foldl_processOne_ciDistinct modsPath stagingName cands s hroot⟩
  · intro h; simp [processOne, h]
  · intro h; simp [processOne, h]

/-- A mods root already holding `ExistingMod` and `OtherMod`. -/
def exState : AnalyzeState := initAnalyzeState ["ExistingMod", "OtherMod"]

/-- Witness for the classification/invariant theorem at a concrete state
and candidate list. -/
theorem install_candidate_classification_preserves_unique_names_witness :
    (existsCI exState.rootNames "NewMod" = true →
      processOne "C:\\MODS" "temp_staging_1" exState "NewMod" =
        { rootNames := if existsCI exState.rootNames "temp_staging_1" then
            exState.rootNames else exState.rootNames ++ ["temp_staging_1"]
          stagingNames := exState.stagingNames ++ ["NewMod"]
          successes := exState.successes
          conflicts := exState.conflicts ++
            [⟨"NewMod", pathJoin (pathJoin "C:\\MODS" "temp_staging_1") "NewMod"⟩] }) ∧
    (existsCI exState.rootNames "NewMod" = false →
      processOne "C:\\MODS" "temp_staging_1" exState "NewMod" =
        { rootNames := exState.rootNames ++ ["NewMod"]
          stagingNames := exState.stagingNames
          successes := exState.successes ++ [⟨"NewMod", pathJoin "C:\\MODS" "NewMod"⟩]
          conflicts := exState.conflicts }) ∧
    ciDistinct ((["ExistingMod", "NewMod"].foldl
      (processOne "C:\\MODS" "temp_staging_1") exState).rootNames) = true :=
  install_candidate_classification_preserves_unique_names "C:\\MODS" "temp_staging_1"
    exState "NewMod" ["ExistingMod", "NewMod"] (by decide)

/-- C4: conflict detection is case-insensitive — a candidate whose name
differs from an existing mods-root entry's name only in letter case is
classified as a conflict — while the on-disk name (the staged directory
name and the recorded conflict name) retains the candidate's original
case. -/
theorem install_conflict_detection_case_insensitive
    (modsPath stagingName : String) (s : AnalyzeState) (candidate existing : String)
    (hmem : existing ∈ s.rootNames)
    (hci : asciiLower existing = asciiLower candidate) :
    processOne modsPath stagingName s candidate =
      { rootNames := if existsCI s.rootNames stagingName then s.rootNames
          else s.rootNames ++ [stagingName]
        stagingNames := s.stagingNames ++ [candidate]
        successes := s.successes
        conflicts := s.conflicts ++
          [⟨candidate, pathJoin (pathJoin modsPath stagingName) candidate⟩] } := by
  have hex : existsCI s.rootNames candidate = true := by
    rw [existsCI, List.any_eq_true]
    exact ⟨existing, hmem, by simp [hci]⟩
  simp [processOne, hex]

/-- Witness: `TESTMOD` conflicts with the existing `TestMod` and is
staged under its own spelling `TESTMOD`. -/
theorem install_conflict_detection_case_insensitive_witness :
    processOne "C:\\MODS" "temp_staging_2" (initAnalyzeState ["TestMod"]) "TESTMOD" =
      { rootNames := if existsCI (initAnalyzeState ["TestMod"]).rootNames
            "temp_staging_2" then (initAnalyzeState ["TestMod"]).rootNames
          else (initAnalyzeState ["TestMod"]).rootNames ++ ["temp_staging_2"]
        stagingNames := (initAnalyzeState ["TestMod"]).stagingNames ++ ["TESTMOD"]
        successes := (initAnalyzeState ["TestMod"]).successes
        conflicts := (initAnalyzeState ["TestMod"]).conflicts ++
          [⟨"TESTMOD", pathJoin (pathJoin "C:\\MODS" "temp_staging_2") "TESTMOD"⟩] } :=
  install_conflict_detection_case_insensitive "C:\\MODS" "temp_staging_2"
    (initAnalyzeState ["TestMod"]) "TESTMOD" "TestMod" (by decide) (by decide)

/-- C6: when the extraction target's immediate children contain no
directory, the analysis returns empty successes, empty conflicts, and a
messy-archive path equal to the extraction target's own path, unchanged. -/
theorem analyze_no_directories_yields_messy
    (modsPath stagingName tempExtractPath : String) (rootNames : List String)
    (children : List DirEnt) (h : ∀ c ∈ children, c.isDir = false) :
    (analyzeExtracted modsPath stagingName tempExtractPath rootNames children).2 =
      ⟨[], [], some tempExtractPath⟩ := by
  have hfilter : children.filter (fun e => e.isDir) = [] := by
    rw [List.filter_eq_nil_iff]
    intro c hc
    simp [h c hc]
  simp [analyzeExtracted, hfilter]

/-- Witness: an archive extracting to two loose files and no directory is
messy. -/
theorem analyze_no_directories_yields_messy_witness :
    (analyzeExtracted "C:\\MODS" "temp_staging_3" "C:\\MODS\\temp_extract_3"
        ["ExistingMod"] [⟨"readme.txt", false⟩, ⟨"mod.pak", false⟩]).2 =
      ⟨[], [], some "C:\\MODS\\temp_extract_3"⟩ :=
  analyze_no_directories_yields_messy "C:\\MODS" "temp_staging_3"
    "C:\\MODS\\temp_extract_3" ["ExistingMod"]
    [⟨"readme.txt", false⟩, ⟨"mod.pak", false⟩] (by decide)

-- RAR extraction loop of `extract_archive_to_temp`.

/-- One RAR archive header: entry path and directory flag (the archive's
entry list per the data model). -/
structure RarHeader where
  path : String
  isDir : Bool
deriving DecidableEq

/-- The operations the unrar binding exposes per header.  `extractTo`
materialises the entry (file content, or directory creation for a
directory entry) and advances the archive cursor; `mkDir` and `skip` are
the separate operations an implementation could issue instead for a
directory header. -/
inductive RarOp where
  | extractTo : String → Bool → RarOp
  | mkDir : String → RarOp
  | skip : RarOp
deriving DecidableEq

/-- The `while let Ok(Some(header)) = archive.read_header()` loop of
`extract_archive_to_temp`'s `"rar"` branch: every header — file or
directory alike — is handed to `header.extract_to(&temp_extract_path)`,
with no inspection of the directory flag and no separate skip. -/
def rarProcess (headers : List RarHeader) : List RarOp :=
  headers.map (fun h => RarOp.extractTo h.path h.isDir)

/-- Counterexample to C5 as stated: for an archive holding a single
directory header, the code's operation trace contains no skip operation
(and no separate directory-creation operation): the directory header is
processed by `extract_to` like any file header. -/
theorem rar_directory_header_gets_no_skip :
    rarProcess [⟨"subdir", true⟩] = [RarOp.extractTo "subdir" true] ∧
    RarOp.skip ∉ rarProcess [⟨"subdir", true⟩] ∧
    RarOp.mkDir "subdir" ∉ rarProcess [⟨"subdir", true⟩] := by decide

/-- C5 amended: every header — whether it describes a file or a
directory — is processed by a single `extract_to` operation that
materialises the entry and advances the archive cursor; the loop never
issues a separate skip operation. -/
theorem rar_every_header_extracted_uniformly (headers : List RarHeader) :
    (rarProcess headers).length = headers.length ∧
    (∀ h ∈ headers, RarOp.extractTo h.path h.isDir ∈ rarProcess headers) ∧
    RarOp.skip ∉ rarProcess headers ∧
    (∀ op ∈ rarProcess headers, ∃ h ∈ headers,
      op = RarOp.extractTo h.path h.isDir) := by
  refine ⟨by simp [rarProcess], ?_, ?_, ?_⟩
  · intro h hmem
    rw [rarProcess, List.mem_map]
    exact ⟨h, hmem, rfl⟩
  · intro hmem
    rw [rarProcess, List.mem_map] at hmem
    obtain ⟨h, _, habs⟩ := hmem
    exact absurd habs (by simp)
  · intro op hop
    rw [rarProcess, List.mem_map] at hop
    obtain ⟨h, hmem, heq⟩ := hop
    exact ⟨h, hmem, heq.symm⟩

/-- Witness for the uniform-extraction theorem at a two-header archive
(one file, one directory). -/
theorem rar_every_header_extracted_uniformly_witness :
    (rarProcess [⟨"a\\b.pak", false⟩, ⟨"a", true⟩]).length =
      ([⟨"a\\b.pak", false⟩, ⟨"a", true⟩] : List RarHeader).length ∧
    (∀ h ∈ ([⟨"a\\b.pak", false⟩, ⟨"a", true⟩] : List RarHeader),
      RarOp.extractTo h.path h.isDir ∈ rarProcess [⟨"a\\b.pak", false⟩, ⟨"a", true⟩]) ∧
    RarOp.skip ∉ rarProcess [⟨"a\\b.pak", false⟩, ⟨"a", true⟩] ∧
    (∀ op ∈ rarProcess [⟨"a\\b.pak", false⟩, ⟨"a", true⟩],
      ∃ h ∈ ([⟨"a\\b.pak", false⟩, ⟨"a", true⟩] : List RarHeader),
        op = RarOp.extractTo h.path h.isDir) :=
  rar_every_header_extracted_uniformly [⟨"a\\b.pak", false⟩, ⟨"a", true⟩]

-- `resolve_conflict`: the mods root's mod folders and the staging
-- directory, each modelled as named entries carrying their content (a
-- file listing).

/-- NTFS-style lookup of a directory entry by case-insensitive name. -/
def findCI (entries : List (String × List String)) (probe : String) :
    Option (String × List String) :=
  entries.find? (fun e => asciiLower e.1 == asciiLower probe)

/-- `fs::remove_dir_all` of `parent/probe`: drop the case-insensitively
matching entry. -/
def removeCI (entries : List (String × List String)) (probe : String) :
    List (String × List String) :=
  entries.filter (fun e => !(asciiLower e.1 == asciiLower probe))

/-- The filesystem state `resolve_conflict` manipulates: the mod folders
of the mods root, and the staging directory's entries (`none` when the
staging directory does not exist). -/
structure ModsFs where
  mods : List (String × List String)
  staging : Option (List (String × List String))
deriving DecidableEq

/-- `resolve_conflict(mod_name, temp_mod_path, replace)`, the staged
candidate being `staging/<stagedName>`: with `replace`, delete the
existing `mods_root/<mod_name>` tree if present and rename the staged
tree into its place; without `replace`, delete the staged tree.  Either
way, remove the staging directory afterwards if it is now empty.  The
`remove_dir_all`/`rename` calls on the staged path fail when it does not
exist. -/
def resolveConflict (modName stagedName : String) (replace : Bool)
    (fs : ModsFs) : Except String ModsFs :=
  match fs.staging with
  | none =>
    Except.error (if replace then "Failed to move new mod into place"
      else "Failed to cleanup temp mod folder")
  | some entries =>
    match findCI entries stagedName with
    | none =>
      Except.error (if replace then "Failed to move new mod into place"
        else "Failed to cleanup temp mod folder")
    | some staged =>
      let entries2 := removeCI entries stagedName
      let fs2 : ModsFs :=
        if replace then
          { mods := removeCI fs.mods modName ++ [(modName, staged.2)]
            staging := some entries2 }
        else
          { mods := fs.mods, staging := some entries2 }
      let fs3 : ModsFs :=
        if entries2.isEmpty then { fs2 with staging := none } else fs2
      Except.ok fs3

/-- The staged candidate `staging/<stagedName>` still exists. -/
def stagedExists (fs : ModsFs) (stagedName : String) : Bool :=
  match fs.staging with
  | some entries => (findCI entries stagedName).isSome
  | none => false

theorem findCI_removeCI (entries : List (String × List String)) (probe : String) :
    findCI (removeCI entries probe) probe = none := by
  rw [findCI, List.find?_eq_none]
  intro e he
  rw [removeCI] at he
  have := (List.mem_filter.mp he).2
  simpa using this

/-- C7: resolving a conflict with `replace = false` deletes the staged
candidate's tree — the staged path no longer exists afterwards — and
leaves every mod folder of the mods root, in particular
`mods_root/<mod_name>`, completely unchanged. -/
theorem resolve_conflict_reject_preserves_existing
    (modName stagedName : String) (fs fs2 : ModsFs)
    (h : resolveConflict modName stagedName false fs = Except.ok fs2) :
    fs2.mods = fs.mods ∧ stagedExists fs2 stagedName = false := by
  cases hst : fs.staging with
  | none => simp [resolveConflict, hst] at h
  | some entries =>
    cases hfind : findCI entries stagedName with
    | none => simp [resolveConflict, hst, hfind] at h
    | some staged =>
      simp only [resolveConflict, hst, hfind, Bool.false_eq_true, if_false] at h
      split at h
      · injection h with h2
        rw [← h2]
        exact ⟨rfl, rfl⟩
      · injection h with h2
        rw [← h2]
        exact ⟨rfl, by simp [stagedExists, findCI_removeCI]⟩

/-- Witness: rejecting the staged update of `"X"` removes the staged
tree (and the now-empty staging directory) and keeps the installed `"X"`
untouched. -/
theorem resolve_conflict_reject_preserves_existing_witness :
    (ModsFs.mk [("X", ["old.pak"])] none).mods =
      (ModsFs.mk [("X", ["old.pak"])] (some [("X", ["new.pak"])])).mods ∧
    stagedExists (ModsFs.mk [("X", ["old.pak"])] none) "X" = false :=
  resolve_conflict_reject_preserves_existing "X" "X"
    (ModsFs.mk [("X", ["old.pak"])] (some [("X", ["new.pak"])]))
    (ModsFs.mk [("X", ["old.pak"])] none) rfl

-- `finalize_mod_installation(temp_path, new_name)`: the parent directory
-- of `temp_path` (the mods root) modelled as its list of entries.

/-- `Path::exists` over a directory listing. -/
def existsEntry (dir : List (String × List String)) (probe : String) : Bool :=
  dir.any (fun e => asciiLower e.1 == asciiLower probe)

/-- `fs::rename(parent/oldName, parent/newName)`: the case-insensitively
matching entry takes the new name (with its original spelling), its
content unchanged. -/
def renameEntry (dir : List (String × List String)) (oldName newName : String) :
    List (String × List String) :=
  dir.map (fun e => if asciiLower e.1 == asciiLower oldName then (newName, e.2) else e)

/-- `finalize_mod_installation`: error when the temp directory no longer
exists; error — touching nothing — when `parent(temp_path)/new_name`
already exists; otherwise rename the temp directory to the new name.
(The real second error message interpolates the colliding name.) -/
def finalizeModInstallation (dir : List (String × List String))
    (tempName newName : String) : Except String (List (String × List String)) :=
  if !existsEntry dir tempName then
    Except.error "Temporary installation folder not found."
  else if existsEntry dir newName then
    Except.error "A mod folder with that name already exists."
  else
    Except.ok (renameEntry dir tempName newName)

/-- C8: `finalize` fails if the temp directory no longer exists; fails
without modifying anything (the error carries no new state) if the
destination name already exists; and otherwise renames the temp entry to
the new name — afterwards an entry named `new_name` exists and carries
the temp entry's content. -/
theorem finalize_checks_then_renames (dir : List (String × List String))
    (tempName newName : String) :
    (existsEntry dir tempName = false →
      finalizeModInstallation dir tempName newName =
        Except.error "Temporary installation folder not found.") ∧
    (existsEntry dir tempName = true → existsEntry dir newName = true →
      finalizeModInstallation dir tempName newName =
        Except.error "A mod folder with that name already exists.") ∧
    (existsEntry dir tempName = true → existsEntry dir newName = false →
      finalizeModInstallation dir tempName newName =
        Except.ok (renameEntry dir tempName newName) ∧
      existsEntry (renameEntry dir tempName newName) newName = true) := by
  refine ⟨?_, ?_, ?_⟩
  · intro h
    simp [finalizeModInstallation, h]
  · intro h1 h2
    simp [finalizeModInstallation, h1, h2]
  · intro h1 h2
    refine ⟨by simp [finalizeModInstallation, h1, h2], ?_⟩
    rw [existsEntry, List.any_eq_true] at h1 ⊢
    obtain ⟨e, hmem, hbeq⟩ := h1
    refine ⟨(newName, e.2), ?_, by simp⟩
    rw [renameEntry, List.mem_map]
    exact ⟨e, hmem, by simp [hbeq]⟩

/-- Witness for the finalize theorem at a concrete listing holding a temp
directory and an installed mod. -/
theorem finalize_checks_then_renames_witness :
    (existsEntry [("temp_extract_7", ["a.pak"]), ("Other", ["b.pak"])]
        "temp_extract_7" = false →
      finalizeModInstallation [("temp_extract_7", ["a.pak"]), ("Other", ["b.pak"])]
          "temp_extract_7" "MyMod" =
        Except.error "Temporary installation folder not found.") ∧
    (existsEntry [("temp_extract_7", ["a.pak"]), ("Other", ["b.pak"])]
        "temp_extract_7" = true →
      existsEntry [("temp_extract_7", ["a.pak"]), ("Other", ["b.pak"])] "MyMod" = true →
      finalizeModInstallation [("temp_extract_7", ["a.pak"]), ("Other", ["b.pak"])]
          "temp_extract_7" "MyMod" =
        Except.error "A mod folder with that name already exists.") ∧
    (existsEntry [("temp_extract_7", ["a.pak"]), ("Other", ["b.pak"])]
        "temp_extract_7" = true →
      existsEntry [("temp_extract_7", ["a.pak"]), ("Other", ["b.pak"])] "MyMod" = false →
      finalizeModInstallation [("temp_extract_7", ["a.pak"]), ("Other", ["b.pak"])]
          "temp_extract_7" "MyMod" =
        Except.ok (renameEntry [("temp_extract_7", ["a.pak"]), ("Other", ["b.pak"])]
          "temp_extract_7" "MyMod") ∧
      existsEntry (renameEntry [("temp_extract_7", ["a.pak"]), ("Other", ["b.pak"])]
        "temp_extract_7" "MyMod") "MyMod" = true) :=
  finalize_checks_then_renames [("temp_extract_7", ["a.pak"]), ("Other", ["b.pak"])]
    "temp_extract_7" "MyMod"
